import Mathlib

/-!
# Verification of the sqls-next connection supervisor and result-normalization pipeline

A shallow embedding of the TypeScript sources of `vscode-sqls-next`:

* `resultParser.ts` (JSON variant): `parseJsonResult`, `parseResultSmart`;
* the ASCII-table variant of the result parser: `parseAsciiTableResult`,
  `parseResultSmart` (embedded here as `parseResultSmartAscii`), `isAsciiTable`;
* `database.ts`: `ConnectionConfigManager.getCurrentConnectionConfig` over the
  persisted global-state key space;
* `lspClient.ts`: the restart-bounded `closed` error handler, `startServer`,
  `stopServer`;
* `resultPanel.ts` / `messageInterceptor.ts`: `MessageInterceptor.activate`,
  `deactivate` and `handleMessage`.

JavaScript strings are modelled as `List Char`; JavaScript runtime values as
the inductive `JSValue`; thrown exceptions as `Except` results.
-/

namespace SqlsNext

/-- A JavaScript runtime value, as the untyped TS code manipulates it:
`null`, `undefined`, booleans, (integer) numbers, strings, arrays and plain
objects with insertion-ordered string keys. -/
inductive JSValue where
  | vNull
  | vUndef
  | vBool (b : Bool)
  | vNum (n : Int)
  | vStr (s : List Char)
  | vArr (elems : List JSValue)
  | vObj (fields : List (List Char × JSValue))

open JSValue

/-- JavaScript truthiness of a value. -/
def truthy : JSValue → Bool
  | vNull => false
  | vUndef => false
  | vBool b => b
  | vNum n => n != 0
  | vStr s => !s.isEmpty
  | vArr _ => true
  | vObj _ => true

/-- `typeof v === "object"` (true for `null`, arrays and objects). -/
def isObjectType : JSValue → Bool
  | vNull => true
  | vArr _ => true
  | vObj _ => true
  | _ => false

/-- `typeof v === "string"`. -/
def isStr : JSValue → Bool
  | vStr _ => true
  | _ => false

/-- `typeof v === "number"`. -/
def isNum : JSValue → Bool
  | vNum _ => true
  | _ => false

/-- `Array.isArray(v)`. -/
def isArr : JSValue → Bool
  | vArr _ => true
  | _ => false

/-- `v === null`. -/
def isVNull : JSValue → Bool
  | vNull => true
  | _ => false

/-- The element list of an array value (empty for non-arrays). -/
def arrElems : JSValue → List JSValue
  | vArr xs => xs
  | _ => []

/-- The character list of a string value (empty for non-strings). -/
def strVal : JSValue → List Char
  | vStr s => s
  | _ => []

/-- The integer of a number value (`0` for non-numbers). -/
def numVal : JSValue → Int
  | vNum n => n
  | _ => 0

/-- Property lookup in an insertion-ordered field list. -/
def lookupField : List (List Char × JSValue) → List Char → JSValue
  | [], _ => vUndef
  | (k, v) :: rest, key => if k = key then v else lookupField rest key

/-- `v[key]` property read: objects look the key up, everything else yields
`undefined` (the embedding only reads named properties off objects and
arrays, and arrays carry no named properties). -/
def getField : JSValue → List Char → JSValue
  | vObj fields, key => lookupField fields key
  | _, _ => vUndef

/-- `key in v` for the places the source guards with a `typeof === "object"`
check first: objects test their key list, arrays and the rest have none of
the keys the source asks about. -/
def hasField : JSValue → List Char → Bool
  | vObj fields, key => fields.any (fun f => f.1 = key)
  | _, _ => false

/-- Property assignment `obj[key] = value` on an insertion-ordered field
list: overwrite in place when the key exists, append otherwise. -/
def setEntry (fields : List (List Char × JSValue)) (key : List Char) (value : JSValue) :
    List (List Char × JSValue) :=
  match fields with
  | [] => [(key, value)]
  | (k, v) :: rest =>
    if k = key then (k, value) :: rest else (k, v) :: setEntry rest key value

/-- Concatenation of a list of strings. -/
def concatAll : List (List Char) → List Char
  | [] => []
  | s :: rest => s ++ concatAll rest

/-- Join a list of strings with a `","` separator (JavaScript
`Array.prototype.join`). -/
def commaJoin : List (List Char) → List Char
  | [] => []
  | [s] => s
  | s :: rest => s ++ ',' :: commaJoin rest

mutual

/-- JavaScript `String(v)` string coercion: `null`, `undefined`, booleans and
numbers print their literal, strings pass through, arrays join their
coerced elements with commas (`null`/`undefined` elements print empty), and
plain objects print `"[object Object]"`. -/
def jsToString : JSValue → List Char
  | vNull => "null".data
  | vUndef => "undefined".data
  | vBool true => "true".data
  | vBool false => "false".data
  | vNum n => (toString n).data
  | vStr s => s
  | vArr xs => commaJoin (jsToStringArr xs)
  | vObj _ => "[object Object]".data

/-- Element-wise `String()` coercion inside an array (`null` and `undefined`
elements become the empty string). -/
def jsToStringArr : List JSValue → List (List Char)
  | [] => []
  | vNull :: xs => [] :: jsToStringArr xs
  | vUndef :: xs => [] :: jsToStringArr xs
  | x :: xs => jsToString x :: jsToStringArr xs

end

/-- Lower-case hexadecimal digit. -/
def hexDigit (n : Nat) : Char :=
  if n < 10 then Char.ofNat (48 + n) else Char.ofNat (87 + n)

/-- JSON string escaping of one character. -/
def escapeChar (c : Char) : List Char :=
  if c = '"' then ['\\', '"']
  else if c = '\\' then ['\\', '\\']
  else if c = '\n' then ['\\', 'n']
  else if c = '\r' then ['\\', 'r']
  else if c = '\t' then ['\\', 't']
  else if c = Char.ofNat 8 then ['\\', 'b']
  else if c = Char.ofNat 12 then ['\\', 'f']
  else if c.toNat < 32 then
    ['\\', 'u', '0', '0', hexDigit (c.toNat / 16), hexDigit (c.toNat % 16)]
  else [c]

/-- A JSON string literal: quotes around the escaped characters. -/
def quoteJson (s : List Char) : List Char :=
  '"' :: (concatAll (s.map escapeChar) ++ ['"'])

mutual

/-- `JSON.stringify(v)`: returns the serialized string, or `undefined`
(modelled as `vUndef`) when the value itself is `undefined`. -/
def jsonStringify : JSValue → JSValue
  | vNull => vStr "null".data
  | vUndef => vUndef
  | vBool true => vStr "true".data
  | vBool false => vStr "false".data
  | vNum n => vStr (toString n).data
  | vStr s => vStr (quoteJson s)
  | vArr xs => vStr ('[' :: (commaJoin (jsonStringifyArr xs) ++ [']']))
  | vObj fs => vStr (Char.ofNat 123 :: (commaJoin (jsonStringifyObj fs) ++ [Char.ofNat 125]))

/-- Array elements under `JSON.stringify`: elements serializing to
`undefined` are printed as `null`. -/
def jsonStringifyArr : List JSValue → List (List Char)
  | [] => []
  | x :: xs =>
    (match jsonStringify x with
      | vStr s => s
      | _ => "null".data) :: jsonStringifyArr xs

/-- Object fields under `JSON.stringify`: fields whose value serializes to
`undefined` are skipped. -/
def jsonStringifyObj : List (List Char × JSValue) → List (List Char)
  | [] => []
  | (k, v) :: fs =>
    match jsonStringify v with
    | vStr s => (quoteJson k ++ ':' :: s) :: jsonStringifyObj fs
    | _ => jsonStringifyObj fs

end

/-! ## resultParser.ts (JSON variant): parseJsonResult and parseResultSmart -/

/-- `row[index]` element read: arrays index their elements (`undefined` out of
range), strings index their characters, objects look up the stringified
index, numbers and booleans yield `undefined`, and `null`/`undefined` throw a
`TypeError`. -/
def jsIndexE (v : JSValue) (i : Nat) : Except (List Char) JSValue :=
  match v with
  | vNull => .error "TypeError: Cannot read properties of null".data
  | vUndef => .error "TypeError: Cannot read properties of undefined".data
  | vArr xs => .ok (xs.getD i vUndef)
  | vStr s =>
    .ok (match s.get? i with
      | some c => vStr [c]
      | none => vUndef)
  | vObj fields => .ok (lookupField fields (toString i).data)
  | _ => .ok vUndef

/-- The special-value test of `parseJsonResult`'s row loop:
`value === "null" || value === null || value === undefined || value === "<nil>"`. -/
def isNullSentinel : JSValue → Bool
  | vNull => true
  | vUndef => true
  | vStr s => s = "null".data || s = "<nil>".data
  | _ => false

/-- The `columnNames.forEach((colName, index) => ...)` loop building one row
object in `parseJsonResult`: read `row[index]`, normalize the special values
to `null`, and assign `rowObj[colName] = value` (the property key is the
`String()` coercion of the column name). -/
def buildRowObjFields (columnNames : List JSValue) (row : JSValue) (idx : Nat)
    (acc : List (List Char × JSValue)) : Except (List Char) (List (List Char × JSValue)) :=
  match columnNames with
  | [] => .ok acc
  | colName :: rest => do
    let raw ← jsIndexE row idx
    let value := if isNullSentinel raw then vNull else raw
    buildRowObjFields rest row (idx + 1) (setEntry acc (jsToString colName) value)

/-- `Array.prototype.map` over rows where the callback may throw: the first
thrown exception aborts and propagates. -/
def mapRowsE (f : JSValue → Except (List Char) JSValue) :
    List JSValue → Except (List Char) (List JSValue)
  | [] => .ok []
  | x :: xs => do
    let y ← f x
    let ys ← mapRowsE f xs
    pure (y :: ys)

/-- `parseJsonResult` from `resultParser.ts`: accepts
`{ columns: [...], rows: [[...], ...] }` or `{ rows_affected: n }` and throws
(`Except.error`) on anything else. -/
def parseJsonResult (jsonData : JSValue) : Except (List Char) JSValue :=
  if !truthy jsonData || !isObjectType jsonData then
    .error "Invalid JSON data input".data
  else if hasField jsonData "rows_affected".data &&
      isNum (getField jsonData "rows_affected".data) then
    let n := numVal (getField jsonData "rows_affected".data)
    .ok (vObj [("columns".data, vArr [vObj [("name".data, vStr "rows_affected".data)]]),
               ("rows".data, vArr [vObj [("rows_affected".data, vNum n)]]),
               ("rowsAffected".data, vNum n)])
  else if hasField jsonData "columns".data && hasField jsonData "rows".data then
    if !isArr (getField jsonData "columns".data) || !isArr (getField jsonData "rows".data) then
      .error "JSON data must have 'columns' and 'rows' arrays".data
    else
      let columnNames := arrElems (getField jsonData "columns".data)
      if columnNames.length = 0 then
        .error "No columns found in JSON data".data
      else do
        let columns := columnNames.map (fun name => vObj [("name".data, vStr (jsToString name))])
        let rows ← mapRowsE (fun row => do
          let fields ← buildRowObjFields columnNames row 0 []
          pure (vObj fields)) (arrElems (getField jsonData "rows".data))
        pure (vObj [("columns".data, vArr columns),
                    ("rows".data, vArr rows),
                    ("rowsAffected".data, vNum rows.length)])
  else
    .error "JSON data must have either 'columns' and 'rows' arrays, or 'rows_affected' number".data

/-- The `{ columns: [{name: "result"}], rows: [{result: v}] }` wrapper used by
both parser variants for raw strings (no `rowsAffected` field). -/
def mkResultWrap (v : JSValue) : JSValue :=
  vObj [("columns".data, vArr [vObj [("name".data, vStr "result".data)]]),
        ("rows".data, vArr [vObj [("result".data, v)]])]

/-- `parseResultSmart` from `resultParser.ts` (the JSON variant): fast path
for values that already carry object rows, conversion through
`parseJsonResult` for positional rows, `JSON.parse` for strings with a
raw-string wrap on any failure, a direct `parseJsonResult` attempt for other
objects, and a `JSON.stringify` wrap as the universal fallback. `JSON.parse`
itself is host functionality and is passed in as `jsonParse`. -/
def parseResultSmart (jsonParse : List Char → Except Unit JSValue) (result : JSValue) : JSValue :=
  let fastPath : Option JSValue :=
    if truthy result && isObjectType result && truthy (getField result "columns".data) &&
        truthy (getField result "rows".data) then
      let rows := getField result "rows".data
      if isArr rows && (arrElems rows).length > 0 then
        let first := (arrElems rows).headD vUndef
        if isArr first then
          match parseJsonResult result with
          | .ok q => some q
          | .error _ => none
        else if isObjectType first && !isArr first then
          some result
        else none
      else none
    else none
  match fastPath with
  | some q => q
  | none =>
    if isStr result then
      match jsonParse (strVal result) with
      | .ok jsonData =>
        match parseJsonResult jsonData with
        | .ok q => q
        | .error _ => mkResultWrap result
      | .error _ => mkResultWrap result
    else
      let objCase : Option JSValue :=
        if isObjectType result && !isVNull result then
          match parseJsonResult result with
          | .ok q => some q
          | .error _ => none
        else none
      match objCase with
      | some q => q
      | none => mkResultWrap (jsonStringify result)

/-! ## The ASCII-table variant of the result parser -/

/-- `s.split(c)` on a single-character separator: always returns at least one
(possibly empty) segment. -/
def splitOnChar (c : Char) : List Char → List (List Char)
  | [] => [[]]
  | x :: xs =>
    match splitOnChar c xs with
    | [] => [[]]
    | seg :: segs => if x = c then [] :: seg :: segs else (x :: seg) :: segs

/-- The whitespace characters `String.prototype.trim` removes (the ones this
code base can encounter). -/
def isWS (c : Char) : Bool :=
  c = ' ' || c = '\t' || c = '\n' || c = '\r'

/-- JavaScript `s.trim()`. -/
def jsTrim (s : List Char) : List Char :=
  ((s.dropWhile isWS).reverse.dropWhile isWS).reverse

/-- `line.startsWith(c)` for a one-character prefix. -/
def startsWithChar (c : Char) (s : List Char) : Bool :=
  match s with
  | [] => false
  | x :: _ => x = c

/-- `/[A-Za-z]/.test(line)`. -/
def hasLetter (s : List Char) : Bool :=
  s.any (fun c => ('A' ≤ c && c ≤ 'Z') || ('a' ≤ c && c ≤ 'z'))

/-- `s.includes(sub)` substring containment. -/
def includesSub (sub : List Char) : List Char → Bool
  | [] => sub.isEmpty
  | x :: rest => sub.isPrefixOf (x :: rest) || includesSub sub rest

/-- `arr.slice(1, -1)`: drop the first and the last element. -/
def sliceInner (l : List (List Char)) : List (List Char) :=
  (l.drop 1).dropLast

/-- The header-line search loop of `parseAsciiTableResult`: the first line
that starts with `|` and contains a letter, together with the lines after
it. -/
def findHeader : List (List Char) → Option (List Char × List (List Char))
  | [] => none
  | line :: rest =>
    if startsWithChar '|' line && hasLetter line then some (line, rest)
    else findHeader rest

/-- Per-cell normalization of the ASCII parser:
`value === "<nil>" || value === "NULL" || value === ""` becomes `null`,
anything else stays the (already trimmed) cell text. -/
def normAsciiCell (value : List Char) : JSValue :=
  if value = "<nil>".data || value = "NULL".data || value = [] then vNull
  else vStr value

/-- The `columnNames.forEach((colName, index) => ...)` loop of the ASCII
parser building one row object from the trimmed cell values. -/
def asciiRowFields (columnNames : List (List Char)) (values : List (List Char)) (idx : Nat)
    (acc : List (List Char × JSValue)) : List (List Char × JSValue) :=
  match columnNames with
  | [] => acc
  | colName :: rest =>
    asciiRowFields rest values (idx + 1) (setEntry acc colName (normAsciiCell (values.getD idx [])))

/-- The data-row scan of `parseAsciiTableResult`: lines starting with `+` are
separators and are skipped, the first line starting with neither `+` nor `|`
ends the scan, and a `|` line contributes a row exactly when its split field
count equals the column count. -/
def scanDataRows (columnNames : List (List Char)) : List (List Char) → List JSValue
  | [] => []
  | line :: rest =>
    if startsWithChar '+' line then scanDataRows columnNames rest
    else if !startsWithChar '|' line then []
    else
      let values := (sliceInner (splitOnChar '|' line)).map jsTrim
      if values.length = columnNames.length then
        vObj (asciiRowFields columnNames values 0 []) :: scanDataRows columnNames rest
      else scanDataRows columnNames rest

/-- `parseAsciiTableResult` from the ASCII-table variant of the result
parser: split into non-blank lines, locate the header, split it on `|` into
trimmed non-empty column names, then scan the data rows. -/
def parseAsciiTableResult (asciiTable : List Char) : Except (List Char) JSValue :=
  if asciiTable.isEmpty then .error "Invalid ASCII table input".data
  else
    let lines := (splitOnChar '\n' asciiTable).filter (fun line => !(jsTrim line).isEmpty)
    match findHeader lines with
    | none => .error "Could not find header line in ASCII table".data
    | some (headerLine, afterHeader) =>
      let columnNames :=
        ((sliceInner (splitOnChar '|' headerLine)).map jsTrim).filter
          (fun col => col.length > 0)
      if columnNames.isEmpty then .error "No columns found in header".data
      else
        let columns := columnNames.map (fun name => vObj [("name".data, vStr name)])
        let rows := scanDataRows columnNames afterHeader
        .ok (vObj [("columns".data, vArr columns),
                   ("rows".data, vArr rows),
                   ("rowsAffected".data, vNum rows.length)])

/-- `Object.keys(v)`: property names of an object, index strings of an array
or a string, the empty list for numbers and booleans, and a thrown
`TypeError` for `null` and `undefined`. -/
def objectKeysE (v : JSValue) : Except (List Char) (List (List Char)) :=
  match v with
  | vNull => .error "TypeError: Cannot convert undefined or null to object".data
  | vUndef => .error "TypeError: Cannot convert undefined or null to object".data
  | vObj fields => .ok (fields.map (fun f => f.1))
  | vArr xs => .ok ((List.range xs.length).map (fun i => (toString i).data))
  | vStr s => .ok ((List.range s.length).map (fun i => (toString i).data))
  | _ => .ok []

/-- `parseResultSmart` from the ASCII-table variant: identity fast path for
any object with truthy `columns` and `rows`, ASCII-table parsing for strings
containing `"+--"` and `"|"` (raw-string wrap when that parse throws),
column derivation from `Object.keys` of the first element for non-empty
arrays of objects, and the `JSON.stringify` wrap as fallback. The
`Object.keys(null)` call in the array branch is *not* guarded, so its
`TypeError` propagates. -/
def parseResultSmartAscii (result : JSValue) : Except (List Char) JSValue :=
  if truthy result && isObjectType result && truthy (getField result "columns".data) &&
      truthy (getField result "rows".data) then
    .ok result
  else if isStr result && includesSub "+--".data (strVal result) &&
      includesSub "|".data (strVal result) then
    match parseAsciiTableResult (strVal result) with
    | .ok q => .ok q
    | .error _ => .ok (mkResultWrap result)
  else
    let arrCase : Except (List Char) (Option JSValue) :=
      if isArr result then
        if (arrElems result).length > 0 && isObjectType ((arrElems result).headD vUndef) then do
          let keys ← objectKeysE ((arrElems result).headD vUndef)
          pure (some (vObj [("columns".data,
                              vArr (keys.map (fun name => vObj [("name".data, vStr name)]))),
                            ("rows".data, result),
                            ("rowsAffected".data, vNum (arrElems result).length)]))
        else pure none
      else pure none
    match arrCase with
    | .error e => .error e
    | .ok (some q) => .ok q
    | .ok none => .ok (mkResultWrap (jsonStringify result))

/-- `isAsciiTable` from the ASCII-table variant: a border marker (`"+--"` or
`"+=="`), a column separator and a newline must all be present. -/
def isAsciiTable (str : List Char) : Bool :=
  (includesSub "+--".data str || includesSub "+==".data str) &&
    includesSub "|".data str && includesSub "\n".data str

/-! ## database.ts: ConnectionConfigManager over the persisted key space -/

/-- A stored connection config `{ alias, driver, dataSourceName }`. -/
structure ConnectionConfig where
  aliasName : List Char
  driver : List Char
  dataSourceName : List Char
deriving DecidableEq

/-- A value in the persisted global state: the default pointer holds an alias
string, alias-prefixed keys hold configs. -/
inductive StateVal where
  | sv (s : List Char)
  | cfg (c : ConnectionConfig)
deriving DecidableEq

/-- `context.globalState`: persisted key-value entries in enumeration order
(`globalState.keys()` enumerates the keys in this order). -/
abbrev GlobalState := List (List Char × StateVal)

/-- `globalState.get(key)`. -/
def stateGet (gs : GlobalState) (key : List Char) : Option StateVal :=
  match gs with
  | [] => none
  | (k, v) :: rest => if k = key then some v else stateGet rest key

/-- `globalState.keys()`. -/
def stateKeys (gs : GlobalState) : List (List Char) :=
  gs.map (fun e => e.1)

/-- The `sqls.conn.default` key holding the default-alias pointer. -/
def DefaultConnectionConfigKey : List Char := "sqls.conn.default".data

/-- The `sqls.conn.alias.` key prefix for stored configs. -/
def aliasKeyStem : List Char := "sqls.conn.alias.".data

/-- `ConnectionConfigManager.getConnectionConfig(context, alias)`: reads the
key `sqls.conn.alias.${alias}`. -/
def getConnectionConfig (gs : GlobalState) (aliasName : List Char) : Option ConnectionConfig :=
  match stateGet gs (aliasKeyStem ++ aliasName) with
  | some (.cfg c) => some c
  | _ => none

/-- The fallback loop of `getCurrentConnectionConfig`: walk
`globalState.keys()` and, for each alias-prefixed key, call
`getConnectionConfig(context, key)` — the source passes the full key, not
the alias. -/
def firstAliasConfig (gs : GlobalState) : List (List Char) → Option ConnectionConfig
  | [] => none
  | key :: rest =>
    if aliasKeyStem.isPrefixOf key then
      match getConnectionConfig gs key with
      | some c => some c
      | none => firstAliasConfig gs rest
    else firstAliasConfig gs rest

/-- `ConnectionConfigManager.getCurrentConnectionConfig(context)`: when the
default pointer is truthy, look its alias up directly; otherwise run the
fallback loop over all keys. -/
def getCurrentConnectionConfig (gs : GlobalState) : Option ConnectionConfig :=
  let defaultAlias : Option (List Char) :=
    match stateGet gs DefaultConnectionConfigKey with
    | some (.sv s) => some s
    | _ => none
  if (match defaultAlias with | some s => !s.isEmpty | none => false) then
    getConnectionConfig gs (defaultAlias.getD [])
  else
    firstAliasConfig gs (stateKeys gs)

/-! ## lspClient.ts: SqlsClient supervisor state -/

/-- The supervisor fields of `SqlsClient`: whether `_client` is initialized,
the `_state` running flag, and `_restartCount`. -/
structure SqlsClientState where
  clientInit : Bool
  state : Bool
  restartCount : Nat
deriving DecidableEq

/-- `_maxRestartAttempts`. -/
def maxRestartAttempts : Nat := 5

/-- `lsp.CloseAction` returned by the `closed` error handler. -/
inductive CloseAction where
  | DoNotRestart
  | Restart
deriving DecidableEq

/-- What one run of the `closed` handler produces: the next supervisor
state, the close action handed to the LSP client library (`Restart`
triggers the automatic restart), and whether the max-restarts error message
was shown to the user. -/
structure ClosedOutcome where
  next : SqlsClientState
  action : CloseAction
  reportedMaxRestarts : Bool
deriving DecidableEq

/-- The `errorHandler.closed` callback of `lspClient.ts`: clear `_state`,
then either report that the maximum restart attempts are reached and refuse
to restart, or increment `_restartCount` and request an automatic restart. -/
def onConnectionClosed (s : SqlsClientState) : ClosedOutcome :=
  let s1 : SqlsClientState := { s with state := false }
  if s1.restartCount ≥ maxRestartAttempts then
    ⟨s1, .DoNotRestart, true⟩
  else
    ⟨{ s1 with restartCount := s1.restartCount + 1 }, .Restart, false⟩

/-- Iterated unexpected connection closures (each step keeps the state the
`closed` handler leaves behind). -/
def iterClosed : Nat → SqlsClientState → SqlsClientState
  | 0, s => s
  | n + 1, s => iterClosed n (onConnectionClosed s).next

/-- `SqlsClient.startServer`: a no-op when already started; otherwise create
the client if needed and start it, resetting `_restartCount` to 0 on
success and clearing `_state` (and rethrowing, second component `false`) on
failure. -/
def startServer (s : SqlsClientState) (startSucceeds : Bool) : SqlsClientState × Bool :=
  if s.state then (s, true)
  else
    let s1 : SqlsClientState := { s with clientInit := true }
    if startSucceeds then ({ s1 with state := true, restartCount := 0 }, true)
    else ({ s1 with state := false }, false)

/-- What `SqlsClient.stopServer` produces: the next supervisor state,
whether a stop request was sent to the external process, and whether the
call threw. -/
structure StopOutcome where
  next : SqlsClientState
  sentStopRequest : Bool
  threw : Bool
deriving DecidableEq

/-- `SqlsClient.stopServer`: when `_state` is unset or `_client` is
uninitialized, log and return; otherwise send the stop request and — in a
`finally` block, so also when the request fails — clear `_state` and drop
the client reference, rethrowing the failure afterwards. -/
def stopServer (s : SqlsClientState) (stopSucceeds : Bool) : StopOutcome :=
  if !s.state || !s.clientInit then ⟨s, false, false⟩
  else ⟨{ s with state := false, clientInit := false }, true, !stopSucceeds⟩

/-! ## MessageInterceptor from resultPanel.ts -/

/-- The three notification severities. -/
inductive MessageType where
  | error
  | warning
  | info
deriving DecidableEq

/-- The three `vscode.window` notification entry points. -/
structure WindowFns (α : Type) where
  showErrorMessage : α
  showWarningMessage : α
  showInformationMessage : α
deriving DecidableEq

/-- A value held in a `vscode.window` notification slot: either a host
function (compared by reference) or one of the replacement closures
`activate()` installs. -/
inductive FnSlot (α : Type) where
  | original (f : α)
  | wrapper (kind : MessageType)
deriving DecidableEq

/-- The observable state of a `MessageInterceptor` together with the window
slots it patches: the three `original*` fields are captured at construction
time, `isActive` guards activation. -/
structure MIState (α : Type) where
  window : WindowFns (FnSlot α)
  originalShowErrorMessage : FnSlot α
  originalShowWarningMessage : FnSlot α
  originalShowInformationMessage : FnSlot α
  isActive : Bool
deriving DecidableEq

/-- The `MessageInterceptor` constructor: save the current window functions,
start inactive. -/
def constructInterceptor (w : WindowFns (FnSlot α)) : MIState α :=
  ⟨w, w.showErrorMessage, w.showWarningMessage, w.showInformationMessage, false⟩

/-- `MessageInterceptor.activate()`: a no-op while active; otherwise install
fresh wrapper closures into the three window slots. -/
def activate (s : MIState α) : MIState α :=
  if s.isActive then s
  else
    { s with
      window := ⟨.wrapper .error, .wrapper .warning, .wrapper .info⟩,
      isActive := true }

/-- `MessageInterceptor.deactivate()`: a no-op while inactive; otherwise
restore the construction-time originals into the window slots. -/
def deactivate (s : MIState α) : MIState α :=
  if !s.isActive then s
  else
    { s with
      window := ⟨s.originalShowErrorMessage, s.originalShowWarningMessage,
                 s.originalShowInformationMessage⟩,
      isActive := false }

/-- One user-visible interceptor call. -/
inductive MIOp where
  | act
  | deact
deriving DecidableEq

/-- Run a sequence of `activate()`/`deactivate()` calls. -/
def runOps (ops : List MIOp) (s : MIState α) : MIState α :=
  ops.foldl (fun s op => match op with | .act => activate s | .deact => deactivate s) s

/-- The runtime options of a `MessageInterceptor`: optional filter
predicate, optional message transformer, log flag. -/
structure MIOptions where
  filter : Option (List Char → MessageType → Bool)
  transformer : Option (List Char → MessageType → List Char)
  logMessages : Bool

/-- What `handleMessage` resolves to: either the empty result
(`Promise.resolve(undefined)`, the original function is not invoked) or a
delivery to the original function with the given first argument and
remaining arguments. -/
inductive HandleResult (α : Type) where
  | suppressed
  | delivered (message : List Char) (rest : List α)
deriving DecidableEq

/-- `MessageInterceptor.handleMessage`: log (no observable effect here),
suppress when a configured filter rejects `(message, type)`, otherwise
apply the optional transformer to the message and delegate to the original
function with `[transformedMessage, ...args.slice(1)]`. -/
def handleMessage (opts : MIOptions) (type : MessageType) (message : List Char)
    (rest : List α) : HandleResult α :=
  if (match opts.filter with
      | some f => !(f message type)
      | none => false) then
    .suppressed
  else
    let transformedMessage :=
      match opts.transformer with
      | some tr => tr message type
      | none => message
    .delivered transformedMessage rest

/-! ## Concrete values used by the claim theorems -/

/-- A stored connection config used as a concrete store entry. -/
def demoConfig : ConnectionConfig := ⟨"db1".data, "mysql".data, "dsn1".data⟩

/-- A store holding one config and no default pointer. -/
def gsNoDefault : GlobalState := [(aliasKeyStem ++ "db1".data, .cfg demoConfig)]

/-- A store holding one config and a default pointer left dangling (its
alias has been removed). -/
def gsDanglingDefault : GlobalState :=
  [(DefaultConnectionConfigKey, .sv "gone".data),
   (aliasKeyStem ++ "db1".data, .cfg demoConfig)]

/-! ## Claim theorems -/

/-- C1: the claim says `parseResultSmart` returns a `QueryResult` and never
raises for any input. The ASCII variant of `parseResultSmart` violates
this: for the array `[null]` its array branch passes the `typeof
result[0] === "object"` guard (in JavaScript `typeof null === "object"`)
and then calls `Object.keys(null)`, which throws a `TypeError`. -/
theorem parseResultSmartAscii_throws_on_array_of_null :
    parseResultSmartAscii (vArr [vNull]) =
      .error "TypeError: Cannot convert undefined or null to object".data := by
  rfl

/-- C2: the claim says `getCurrentConnectionConfig` falls back to the first
stored config when the default pointer is unset or dangling. In the code
the fallback loop passes the full storage key (not the alias) to
`getConnectionConfig`, which prefixes it again, so the fallback never finds
any config; and a dangling pointer returns directly without entering the
fallback at all. Both stores hold `demoConfig` (retrievable by alias), yet
`getCurrentConnectionConfig` returns `none` for both. -/
theorem getCurrentConnectionConfig_misses_stored_configs :
    getConnectionConfig gsNoDefault "db1".data = some demoConfig ∧
    getCurrentConnectionConfig gsNoDefault = none ∧
    getConnectionConfig gsDanglingDefault "db1".data = some demoConfig ∧
    getCurrentConnectionConfig gsDanglingDefault = none :=
  ⟨rfl, rfl, rfl, rfl⟩

/-- C10: `stopServer` on a supervisor that is not running (state flag false
or client uninitialized) returns normally, sends no stop request, and
leaves the supervisor state unchanged. -/
theorem stopServer_noop_when_not_running (s : SqlsClientState) (stopSucceeds : Bool)
    (h : s.state = false ∨ s.clientInit = false) :
    stopServer s stopSucceeds = ⟨s, false, false⟩ := by
  unfold stopServer
  rcases h with h | h <;> simp [h]

/-- Witness for C10 at a stopped-but-initialized supervisor. -/
theorem stopServer_noop_when_not_running_witness :
    stopServer ⟨true, false, 3⟩ true = ⟨⟨true, false, 3⟩, false, false⟩ :=
  stopServer_noop_when_not_running ⟨true, false, 3⟩ true (Or.inl rfl)

/-- C7: starting from restart counter 0, each of the first five unexpected
closures increments the counter and requests an automatic restart without
reporting; the sixth closure requests no restart, leaves the running flag
cleared (`Stopped`), reports the max-restarts error to the user, and does
not advance the counter. -/
theorem closedHandler_bounded_restarts (ci st : Bool) :
    (∀ k, k < maxRestartAttempts →
      (onConnectionClosed (iterClosed k ⟨ci, st, 0⟩)).action = .Restart ∧
      (onConnectionClosed (iterClosed k ⟨ci, st, 0⟩)).reportedMaxRestarts = false ∧
      (iterClosed (k + 1) ⟨ci, st, 0⟩).restartCount = k + 1) ∧
    (onConnectionClosed (iterClosed maxRestartAttempts ⟨ci, st, 0⟩)).action = .DoNotRestart ∧
    (onConnectionClosed (iterClosed maxRestartAttempts ⟨ci, st, 0⟩)).next.state = false ∧
    (onConnectionClosed (iterClosed maxRestartAttempts ⟨ci, st, 0⟩)).reportedMaxRestarts = true ∧
    (onConnectionClosed (iterClosed maxRestartAttempts ⟨ci, st, 0⟩)).next.restartCount =
      maxRestartAttempts := by
  cases ci <;> cases st <;>
    exact ⟨by
        intro k hk
        have hk5 : k < 5 := hk
        interval_cases k <;> exact ⟨rfl, rfl, rfl⟩,
      rfl, rfl, rfl, rfl⟩

/-- Witness for C7: third closure still restarts, sixth one does not. -/
theorem closedHandler_bounded_restarts_witness :
    (onConnectionClosed (iterClosed 2 ⟨true, true, 0⟩)).action = .Restart ∧
    (onConnectionClosed (iterClosed 5 ⟨true, true, 0⟩)).action = .DoNotRestart :=
  ⟨((closedHandler_bounded_restarts true true).1 2 (by decide)).1,
   (closedHandler_bounded_restarts true true).2.1⟩

/-- The invariant carried through interceptor call sequences: the captured
originals are the construction-time window functions, and whenever the
interceptor is inactive the window holds exactly those originals. -/
def Restores (w : WindowFns (FnSlot α)) (s : MIState α) : Prop :=
  s.originalShowErrorMessage = w.showErrorMessage ∧
  s.originalShowWarningMessage = w.showWarningMessage ∧
  s.originalShowInformationMessage = w.showInformationMessage ∧
  (s.isActive = false → s.window = w)

theorem restores_activate {w : WindowFns (FnSlot α)} {s : MIState α}
    (h : Restores w s) : Restores w (activate s) := by
  obtain ⟨h1, h2, h3, h4⟩ := h
  unfold activate
  by_cases ha : s.isActive
  · simpa [ha] using ⟨h1, h2, h3, h4⟩
  · simp only [ha, if_false]
    exact ⟨h1, h2, h3, fun hc => by simp at hc⟩

theorem restores_deactivate {w : WindowFns (FnSlot α)} {s : MIState α}
    (h : Restores w s) : Restores w (deactivate s) := by
  obtain ⟨h1, h2, h3, h4⟩ := h
  unfold deactivate
  by_cases ha : s.isActive
  · simp only [ha, Bool.not_true, if_false]
    refine ⟨h1, h2, h3, fun _ => ?_⟩
    simp [h1, h2, h3]
  · simp only [eq_false_of_ne_true ha, Bool.not_false, if_true]
    exact ⟨h1, h2, h3, h4⟩

theorem restores_runOps {w : WindowFns (FnSlot α)} (ops : List MIOp) {s : MIState α}
    (h : Restores w s) : Restores w (runOps ops s) := by
  induction ops generalizing s with
  | nil => exact h
  | cons op rest ih =>
    cases op with
    | act => exact ih (restores_activate h)
    | deact => exact ih (restores_deactivate h)

theorem isActive_deactivate (s : MIState α) : (deactivate s).isActive = false := by
  unfold deactivate
  by_cases ha : s.isActive <;> simp [ha]

/-- C8: any sequence of `activate()`/`deactivate()` calls ending in
`deactivate()` leaves the three window notification functions
reference-identical to the construction-time originals; moreover
`activate()` while active and `deactivate()` while inactive are no-ops, so
wrappers never nest. -/
theorem interceptor_restores_originals :
    (∀ (α : Type) (w : WindowFns (FnSlot α)) (ops : List MIOp),
      (runOps (ops ++ [.deact]) (constructInterceptor w)).window = w) ∧
    (∀ (α : Type) (s : MIState α), s.isActive = true → activate s = s) ∧
    (∀ (α : Type) (s : MIState α), s.isActive = false → deactivate s = s) := by
  refine ⟨fun α w ops => ?_, fun α s h => by simp [activate, h], fun α s h => by
    simp [deactivate, h]⟩
  have hinit : Restores w (constructInterceptor w) :=
    ⟨rfl, rfl, rfl, fun _ => rfl⟩
  have hrun : Restores w (runOps (ops ++ [.deact]) (constructInterceptor w)) :=
    restores_runOps _ hinit
  have hsplit : runOps (ops ++ [MIOp.deact]) (constructInterceptor w) =
      deactivate (runOps ops (constructInterceptor w)) := by
    unfold runOps
    rw [List.foldl_append]
    rfl
  exact hrun.2.2.2 (by rw [hsplit]; exact isActive_deactivate _)

/-- Witness for C8: the sequence `activate(); activate(); deactivate();
deactivate();` over concrete host functions restores the original
references, and the two no-op facts at concrete states. -/
theorem interceptor_restores_originals_witness :
    (runOps [.act, .act, .deact, .deact]
      (constructInterceptor (⟨.original 0, .original 1, .original 2⟩ :
        WindowFns (FnSlot Nat)))).window =
      (⟨.original 0, .original 1, .original 2⟩ : WindowFns (FnSlot Nat)) ∧
    activate (⟨⟨.wrapper .error, .wrapper .warning, .wrapper .info⟩,
      .original 0, .original 1, .original 2, true⟩ : MIState Nat) =
      ⟨⟨.wrapper .error, .wrapper .warning, .wrapper .info⟩,
        .original 0, .original 1, .original 2, true⟩ ∧
    deactivate (constructInterceptor (⟨.original 0, .original 1, .original 2⟩ :
      WindowFns (FnSlot Nat))) =
      constructInterceptor ⟨.original 0, .original 1, .original 2⟩ :=
  ⟨interceptor_restores_originals.1 Nat _ [.act, .act, .deact],
   interceptor_restores_originals.2.1 Nat _ rfl,
   interceptor_restores_originals.2.2 Nat _ rfl⟩

/-- C9: while the interceptor is active, a configured filter that rejects
`(message, type)` suppresses exactly that call (the original function is
not invoked and the call resolves to the empty result); accepted calls are
delivered to the original function with the optional transformer applied to
the message and all remaining arguments unchanged. -/
theorem handleMessage_filter_and_transform :
    ∀ (α : Type) (opts : MIOptions) (type : MessageType) (message : List Char)
      (rest : List α),
      (∀ f, opts.filter = some f → f message type = false →
        handleMessage opts type message rest = HandleResult.suppressed) ∧
      (∀ f, opts.filter = some f → f message type = true →
        (opts.transformer = none →
          handleMessage opts type message rest = .delivered message rest) ∧
        (∀ tr, opts.transformer = some tr →
          handleMessage opts type message rest = .delivered (tr message type) rest)) ∧
      (opts.filter = none →
        (opts.transformer = none →
          handleMessage opts type message rest = .delivered message rest) ∧
        (∀ tr, opts.transformer = some tr →
          handleMessage opts type message rest = .delivered (tr message type) rest)) := by
  intro α opts type message rest
  refine ⟨fun f hf hrej => ?_, fun f hf hacc => ⟨fun htr => ?_, fun tr htr => ?_⟩,
    fun hf => ⟨fun htr => ?_, fun tr htr => ?_⟩⟩ <;>
    simp [handleMessage, hf, *]

/-- Witness for C9: a filter suppressing messages containing
`"no database connection"` suppresses exactly such a message and lets a
sibling message through, transformed. -/
theorem handleMessage_filter_and_transform_witness :
    handleMessage
        ⟨some (fun m _ => !includesSub "no database connection".data m),
         some (fun m _ => '!' :: m), true⟩
        .error "no database connection".data ([3] : List Nat) =
      HandleResult.suppressed ∧
    handleMessage
        ⟨some (fun m _ => !includesSub "no database connection".data m),
         some (fun m _ => '!' :: m), true⟩
        .error "other".data ([3] : List Nat) =
      .delivered ('!' :: "other".data) [3] :=
  ⟨(handleMessage_filter_and_transform Nat _ .error "no database connection".data [3]).1
      _ rfl (by decide),
   ((handleMessage_filter_and_transform Nat _ .error "other".data [3]).2.1
      _ rfl (by decide)).2 _ rfl⟩

theorem truthy_vArr (xs : List JSValue) : truthy (vArr xs) = true := rfl

theorem isArr_vArr (xs : List JSValue) : isArr (vArr xs) = true := rfl

theorem arrElems_vArr (xs : List JSValue) : arrElems (vArr xs) = xs := rfl

/-- A value of canonical `QueryResult` shape with empty `rows`. -/
def canonicalEmptyRows : JSValue :=
  vObj [("columns".data, vArr [vObj [("name".data, vStr "a".data)]]),
        ("rows".data, vArr [])]

/-- C3 counterexample: the claim says `parseResultSmart` is the identity on
every value of canonical shape, including empty `rows`. With empty `rows`
the fast path's `rows.length > 0` test fails, the value is re-parsed by
`parseJsonResult`, and the result differs from the input (it gains a
`rowsAffected` field, and the column objects are stringified to
`"[object Object]"`). -/
theorem parseResultSmart_changes_empty_rows :
    parseResultSmart (fun _ => .error ()) canonicalEmptyRows ≠ canonicalEmptyRows := by
  intro h
  exact absurd (congrArg (fun v => hasField v "rowsAffected".data) h) (by decide)

/-- C3 amended: `parseResultSmart` is the identity on values of canonical
shape with at least one row (the first row an object and not an array);
with empty `rows` the value is re-parsed and generally changed. -/
theorem parseResultSmart_identity_on_nonempty_object_rows
    (jsonParse : List Char → Except Unit JSValue) (v first : JSValue)
    (rows : List JSValue)
    (hv : truthy v = true) (hobj : isObjectType v = true)
    (hcols : truthy (getField v "columns".data) = true)
    (hrows : getField v "rows".data = vArr (first :: rows))
    (hfirstObj : isObjectType first = true) (hfirstNotArr : isArr first = false) :
    parseResultSmart jsonParse v = v := by
  unfold parseResultSmart
  rw [hrows]
  simp [hv, hobj, hcols, truthy_vArr, isArr_vArr, arrElems_vArr, hfirstObj, hfirstNotArr,
    Nat.succ_pos]

/-- Witness for C3 amended at a one-row canonical value. -/
theorem parseResultSmart_identity_on_nonempty_object_rows_witness :
    parseResultSmart (fun _ => .error ())
      (vObj [("columns".data, vArr [vObj [("name".data, vStr "a".data)]]),
             ("rows".data, vArr [vObj [("a".data, vNum 1)]])]) =
      vObj [("columns".data, vArr [vObj [("name".data, vStr "a".data)]]),
            ("rows".data, vArr [vObj [("a".data, vNum 1)]])] :=
  parseResultSmart_identity_on_nonempty_object_rows _ _
    (vObj [("a".data, vNum 1)]) [] rfl rfl rfl rfl rfl rfl

/-- The tables-with-`+==`-borders counterexample string for C4:
`"+==+\n| A |\n+==+\n| 1 |\n+==+"`. -/
def equalsBorderTable : List Char := "+==+\n| A |\n+==+\n| 1 |\n+==+".data

/-- What `parseAsciiTableResult` makes of `equalsBorderTable`. -/
def equalsBorderParsed : JSValue :=
  vObj [("columns".data, vArr [vObj [("name".data, vStr "A".data)]]),
        ("rows".data, vArr [vObj [("A".data, vStr "1".data)]]),
        ("rowsAffected".data, vNum 1)]

/-- The name of the first column of a result value. -/
def firstColumnName (v : JSValue) : List Char :=
  strVal (getField ((arrElems (getField v "columns".data)).headD vUndef) "name".data)

/-- C4 counterexample: the claim says ASCII-table parsing is attempted
exactly when the string has a `+--` or `+==` border, a pipe and a newline.
`equalsBorderTable` satisfies that predicate (`isAsciiTable` returns true)
and parses as a one-row table, yet the ASCII variant of `parseResultSmart`
only tests for `+--`, so it returns the JSON-stringified fallback wrap
instead of the table. -/
theorem parseResultSmartAscii_ignores_equals_border :
    isAsciiTable equalsBorderTable = true ∧
    parseAsciiTableResult equalsBorderTable = .ok equalsBorderParsed ∧
    parseResultSmartAscii (vStr equalsBorderTable) =
      .ok (mkResultWrap (jsonStringify (vStr equalsBorderTable))) ∧
    parseResultSmartAscii (vStr equalsBorderTable) ≠ .ok equalsBorderParsed := by
  refine ⟨by decide, rfl, rfl, fun h => ?_⟩
  have hw : mkResultWrap (jsonStringify (vStr equalsBorderTable)) = equalsBorderParsed :=
    Except.ok.inj ((rfl : parseResultSmartAscii (vStr equalsBorderTable) =
      .ok (mkResultWrap (jsonStringify (vStr equalsBorderTable)))).symm.trans h)
  exact absurd (congrArg firstColumnName hw) (by decide)

/-- C4 amended: on string input, the ASCII variant of `parseResultSmart`
attempts ASCII-table parsing exactly when the string contains `"+--"` and a
pipe (newlines and `"+=="` borders are not consulted), falling back to the
raw-string wrap when that parse throws; any other string is not
JSON-parsed but wrapped, JSON-stringified, in the universal fallback. -/
theorem parseResultSmartAscii_string_detection (s : List Char) :
    parseResultSmartAscii (vStr s) =
      .ok (if includesSub "+--".data s && includesSub "|".data s then
            match parseAsciiTableResult s with
            | .ok q => q
            | .error _ => mkResultWrap (vStr s)
          else mkResultWrap (jsonStringify (vStr s))) := by
  cases hc : includesSub "+--".data s && includesSub "|".data s with
  | false =>
    simp only [parseResultSmartAscii, truthy, isObjectType, isStr, strVal, isArr, hc,
      Bool.and_false, Bool.false_and, Bool.and_true, Bool.true_and, if_false]
    rfl
  | true =>
    simp only [parseResultSmartAscii, truthy, isObjectType, isStr, strVal, isArr, hc,
      Bool.and_false, Bool.false_and, Bool.and_true, Bool.true_and, if_false, if_true]
    cases hp : parseAsciiTableResult s <;> simp [hp]

/-! ## Claim C6: parseJsonResult on positional rows -/

theorem truthy_vObj (fs : List (List Char × JSValue)) : truthy (vObj fs) = true := rfl

theorem isObjectType_vObj (fs : List (List Char × JSValue)) : isObjectType (vObj fs) = true := rfl

theorem hasField_of_getField_ne (fs : List (List Char × JSValue)) (k : List Char)
    (h : getField (vObj fs) k ≠ vUndef) : hasField (vObj fs) k = true := by
  induction fs with
  | nil => exact absurd rfl h
  | cons e rest ih =>
    by_cases hk : e.1 = k
    · simp [hasField, hk]
    · have h2 : getField (vObj rest) k ≠ vUndef := by
        simpa [getField, lookupField, hk] using h
      have hr : rest.any (fun f => f.1 = k) = true := ih h2
      show ((e :: rest).any (fun f => f.1 = k)) = true
      simp [List.any_cons, hk, hr]

/-- The canonical-null normalization of one positional value. -/
def normJson (v : JSValue) : JSValue :=
  if isNullSentinel v then vNull else v

/-- The row object the positional-rows branch of `parseJsonResult` builds:
each column name (as a property key, via `String()`) paired with the
normalized value at its index. -/
def jsonRowSpec (columnNames : List JSValue) (xs : List JSValue) (idx : Nat) :
    List (List Char × JSValue) :=
  match columnNames with
  | [] => []
  | c :: cs => (jsToString c, normJson (xs.getD idx vUndef)) :: jsonRowSpec cs xs (idx + 1)

theorem setEntry_append (acc : List (List Char × JSValue)) (k : List Char) (v : JSValue)
    (h : ∀ e ∈ acc, e.1 ≠ k) : setEntry acc k v = acc ++ [(k, v)] := by
  induction acc with
  | nil => rfl
  | cons e rest ih =>
    have hek : e.1 ≠ k := h e (List.mem_cons_self _ _)
    simp only [setEntry, hek, if_false]
    rw [ih (fun e' he' => h e' (List.mem_cons_of_mem _ he'))]
    rfl

theorem buildRowObjFields_vArr (cols : List JSValue) (xs : List JSValue) :
    ∀ (idx : Nat) (acc : List (List Char × JSValue)),
      (cols.map jsToString).Nodup →
      (∀ c ∈ cols, ∀ e ∈ acc, e.1 ≠ jsToString c) →
      buildRowObjFields cols (vArr xs) idx acc = .ok (acc ++ jsonRowSpec cols xs idx) := by
  induction cols with
  | nil => intro idx acc _ _; simp [buildRowObjFields, jsonRowSpec]
  | cons c cs ih =>
    intro idx acc hnd hdisj
    have hset : setEntry acc (jsToString c) (normJson (xs.getD idx vUndef)) =
        acc ++ [(jsToString c, normJson (xs.getD idx vUndef))] :=
      setEntry_append _ _ _ (hdisj c (List.mem_cons_self _ _))
    have hnd' : (cs.map jsToString).Nodup := by
      simpa using hnd.of_cons
    have hnotin : jsToString c ∉ cs.map jsToString := by
      have := hnd
      simp only [List.map_cons, List.nodup_cons] at this
      exact this.1
    have hdisj' : ∀ c' ∈ cs, ∀ e ∈ acc ++ [(jsToString c, normJson (xs.getD idx vUndef))],
        e.1 ≠ jsToString c' := by
      intro c' hc' e he
      rcases List.mem_append.mp he with he | he
      · exact hdisj c' (List.mem_cons_of_mem _ hc') e he
      · simp only [List.mem_singleton] at he
        subst he
        intro hcontra
        have hc2 : jsToString c = jsToString c' := hcontra
        exact hnotin (hc2.symm ▸ List.mem_map_of_mem jsToString hc')
    calc buildRowObjFields (c :: cs) (vArr xs) idx acc
        = buildRowObjFields cs (vArr xs) (idx + 1)
            (setEntry acc (jsToString c) (normJson (xs.getD idx vUndef))) := rfl
      _ = .ok (acc ++ [(jsToString c, normJson (xs.getD idx vUndef))] ++
            jsonRowSpec cs xs (idx + 1)) := by rw [hset]; exact ih _ _ hnd' hdisj'
      _ = .ok (acc ++ jsonRowSpec (c :: cs) xs idx) := by
          simp [jsonRowSpec]

theorem mapRowsE_positional (cols : List JSValue) (hnd : (cols.map jsToString).Nodup) :
    ∀ rws : List (List JSValue),
      mapRowsE (fun row => do
        let fields ← buildRowObjFields cols row 0 []
        pure (vObj fields)) (rws.map vArr) =
      .ok (rws.map fun r => vObj (jsonRowSpec cols r 0)) := by
  intro rws
  induction rws with
  | nil => rfl
  | cons r rest ih =>
    simp only [List.map_cons, mapRowsE,
      buildRowObjFields_vArr cols r 0 [] hnd (by intro _ _ e he; cases he), ih]
    rfl

/-- C6 amended and the `rows_affected` half of the claim. The claim as
stated fails for an empty `columns` array (see the counterexample): with a
*non-empty* `columns` array, a `rows` array of positional arrays, distinct
stringified column names, and no numeric `rows_affected` field (that branch
has priority), `parseJsonResult` zips each row with the column names, turns
`"null"`, `null`, `undefined` and `"<nil>"` into canonical null, and sets
`rowsAffected` to the number of rows; an object with a numeric
`rows_affected` field yields the single-column single-row result carrying
that number. -/
theorem parseJsonResult_positional_and_rows_affected :
    (∀ (fields : List (List Char × JSValue)) (cols : List JSValue)
        (rws : List (List JSValue)),
      (hasField (vObj fields) "rows_affected".data &&
        isNum (getField (vObj fields) "rows_affected".data)) = false →
      getField (vObj fields) "columns".data = vArr cols →
      getField (vObj fields) "rows".data = vArr (rws.map vArr) →
      cols ≠ [] →
      (cols.map jsToString).Nodup →
      parseJsonResult (vObj fields) =
        .ok (vObj [("columns".data,
                     vArr (cols.map fun name => vObj [("name".data, vStr (jsToString name))])),
                   ("rows".data, vArr (rws.map fun r => vObj (jsonRowSpec cols r 0))),
                   ("rowsAffected".data, vNum rws.length)])) ∧
    (∀ (fields : List (List Char × JSValue)) (n : Int),
      getField (vObj fields) "rows_affected".data = vNum n →
      parseJsonResult (vObj fields) =
        .ok (vObj [("columns".data, vArr [vObj [("name".data, vStr "rows_affected".data)]]),
                   ("rows".data, vArr [vObj [("rows_affected".data, vNum n)]]),
                   ("rowsAffected".data, vNum n)])) := by
  constructor
  · intro fields cols rws hra hc hr hne hnd
    have hcf : hasField (vObj fields) "columns".data = true :=
      hasField_of_getField_ne _ _ (by rw [hc]; exact fun h => JSValue.noConfusion h)
    have hrf : hasField (vObj fields) "rows".data = true :=
      hasField_of_getField_ne _ _ (by rw [hr]; exact fun h => JSValue.noConfusion h)
    have hlen : ¬cols.length = 0 := by
      simpa [List.length_eq_zero] using hne
    unfold parseJsonResult
    rw [hc, hr]
    simp only [truthy_vObj, isObjectType_vObj, Bool.not_true, Bool.false_or, hra,
      Bool.or_self, if_false, hcf, hrf, Bool.and_self, if_true, isArr_vArr,
      arrElems_vArr, hlen, Bool.not_false, Bool.and_true, Bool.true_and]
    rw [mapRowsE_positional cols hnd rws]
    simp
  · intro fields n hra
    have hrf : hasField (vObj fields) "rows_affected".data = true :=
      hasField_of_getField_ne _ _ (by rw [hra]; exact fun h => JSValue.noConfusion h)
    unfold parseJsonResult
    simp [truthy_vObj, isObjectType_vObj, hrf, hra, isNum, numVal]

/-- C6 counterexample: the claim quantifies over every object with a
`columns` array and a positional `rows` array, but for an empty `columns`
array `parseJsonResult` throws (`"No columns found in JSON data"`) instead
of producing a result with `rowsAffected = rows.length = 0`. -/
theorem parseJsonResult_throws_on_empty_columns :
    parseJsonResult (vObj [("columns".data, vArr []), ("rows".data, vArr [])]) =
      .error "No columns found in JSON data".data := rfl

/-- Witness for C6 at the spec's own end-to-end scenarios:
`{columns: ["id","name"], rows: [[1,"Alice"],[2,"Bob"]]}` and
`{rows_affected: 3}`. -/
theorem parseJsonResult_positional_and_rows_affected_witness :
    parseJsonResult (vObj [("columns".data, vArr [vStr "id".data, vStr "name".data]),
        ("rows".data, vArr [vArr [vNum 1, vStr "Alice".data],
                            vArr [vNum 2, vStr "Bob".data]])]) =
      .ok (vObj [("columns".data, vArr [vObj [("name".data, vStr "id".data)],
                                        vObj [("name".data, vStr "name".data)]]),
                 ("rows".data, vArr [vObj [("id".data, vNum 1), ("name".data, vStr "Alice".data)],
                                     vObj [("id".data, vNum 2), ("name".data, vStr "Bob".data)]]),
                 ("rowsAffected".data, vNum 2)]) ∧
    parseJsonResult (vObj [("rows_affected".data, vNum 3)]) =
      .ok (vObj [("columns".data, vArr [vObj [("name".data, vStr "rows_affected".data)]]),
                 ("rows".data, vArr [vObj [("rows_affected".data, vNum 3)]]),
                 ("rowsAffected".data, vNum 3)]) :=
  ⟨(parseJsonResult_positional_and_rows_affected.1
      [("columns".data, vArr [vStr "id".data, vStr "name".data]),
       ("rows".data, vArr [vArr [vNum 1, vStr "Alice".data], vArr [vNum 2, vStr "Bob".data]])]
      [vStr "id".data, vStr "name".data]
      [[vNum 1, vStr "Alice".data], [vNum 2, vStr "Bob".data]]
      rfl rfl rfl (List.cons_ne_nil _ _) (by decide)).trans (by rfl),
   parseJsonResult_positional_and_rows_affected.2 [("rows_affected".data, vNum 3)] 3 rfl⟩

/-! ## Claim C5: parseAsciiTableResult on well-formed tables -/

/-- A border line of a rendered table. -/
def borderLine : List Char := "+----+".data

/-- A summary footer line ("N rows in set"-style: starts with neither `|`
nor `+`). -/
def footerLine : List Char := "rows in set".data

/-- Render one table line: every cell padded with one space on each side
between `|` separators. -/
def renderLine (cells : List (List Char)) : List Char :=
  '|' :: concatAll (cells.map (fun c => ' ' :: (c ++ [' ', '|'])))

/-- Join lines with newlines. -/
def joinNL : List (List Char) → List Char
  | [] => []
  | [l] => l
  | l :: ls => l ++ '\n' :: joinNL ls

/-- Render a well-formed ASCII table: top border, header, border, the data
rows, bottom border, summary footer. -/
def renderTable (cols : List (List Char)) (rows : List (List (List Char))) : List Char :=
  joinNL ([borderLine, renderLine cols, borderLine] ++ rows.map renderLine ++
    [borderLine, footerLine])

/-- A well-formed cell: free of `|` and newline, no leading or trailing
whitespace. -/
def goodCell (c : List Char) : Bool :=
  c.all (fun ch => !(ch == '|') && !(ch == '\n')) &&
    !isWS (c.headD '.') && !isWS (c.reverse.headD '.')

/-- A well-formed column name: a non-empty well-formed cell. -/
def goodName (c : List Char) : Bool :=
  !c.isEmpty && goodCell c

theorem splitOnChar_ne_nil (c : Char) (l : List Char) : splitOnChar c l ≠ [] := by
  cases l with
  | nil => exact fun h => List.noConfusion h
  | cons x xs =>
    simp only [splitOnChar]
    rcases hs : splitOnChar c xs with _ | ⟨seg, segs⟩
    · exact fun h => List.noConfusion h
    · by_cases hx : x = c <;> simp [hx]

theorem splitOnChar_of_not_mem (c : Char) (a : List Char) (h : c ∉ a) :
    splitOnChar c a = [a] := by
  induction a with
  | nil => rfl
  | cons x xs ih =>
    have hx : ¬x = c := fun hh => h (hh ▸ List.mem_cons_self x xs)
    have hxs : c ∉ xs := fun hh => h (List.mem_cons_of_mem _ hh)
    simp only [splitOnChar, ih hxs, hx, if_false]

theorem splitOnChar_cons_self (c : Char) (l : List Char) :
    splitOnChar c (c :: l) = [] :: splitOnChar c l := by
  simp only [splitOnChar]
  rcases hs : splitOnChar c l with _ | ⟨seg, segs⟩
  · exact absurd hs (splitOnChar_ne_nil c l)
  · simp

theorem splitOnChar_append_cons (c : Char) (a b : List Char) (h : c ∉ a) :
    splitOnChar c (a ++ c :: b) = a :: splitOnChar c b := by
  induction a with
  | nil => simpa using splitOnChar_cons_self c b
  | cons x xs ih =>
    have hx : ¬x = c := fun hh => h (hh ▸ List.mem_cons_self x xs)
    have hxs : c ∉ xs := fun hh => h (List.mem_cons_of_mem _ hh)
    have hstep : (x :: xs) ++ c :: b = x :: (xs ++ c :: b) := rfl
    rw [hstep, splitOnChar, ih hxs]
    simp [hx]

theorem splitOnChar_joinNL (ls : List (List Char)) (hne : ls ≠ [])
    (h : ∀ l ∈ ls, '\n' ∉ l) : splitOnChar '\n' (joinNL ls) = ls := by
  induction ls with
  | nil => exact absurd rfl hne
  | cons l rest ih =>
    cases rest with
    | nil => exact splitOnChar_of_not_mem _ _ (h l (List.mem_cons_self _ _))
    | cons l2 rest2 =>
      have hstep : joinNL (l :: l2 :: rest2) = l ++ '\n' :: joinNL (l2 :: rest2) := rfl
      rw [hstep, splitOnChar_append_cons _ _ _ (h l (List.mem_cons_self _ _)),
        ih (fun hh => List.noConfusion hh) (fun l' hl' => h l' (List.mem_cons_of_mem _ hl'))]

theorem jsTrim_ne_nil_of_head (x : Char) (t : List Char) (hx : isWS x = false) :
    jsTrim (x :: t) ≠ [] := by
  unfold jsTrim
  rw [List.dropWhile_cons, hx]
  simp only [Bool.false_eq_true, if_false, ne_eq, List.reverse_eq_nil_iff]
  intro hdrop
  have hall := List.dropWhile_eq_nil_iff.mp hdrop x (by
    rw [List.mem_reverse]; exact List.mem_cons_self _ _)
  rw [hx] at hall
  exact Bool.noConfusion hall

theorem jsTrim_pad (cell : List Char) (h : goodCell cell = true) :
    jsTrim (' ' :: (cell ++ [' '])) = cell := by
  have hws : isWS ' ' = true := rfl
  cases cell with
  | nil => rfl
  | cons a rest =>
    have hparts := h
    simp only [goodCell, Bool.and_eq_true] at hparts
    obtain ⟨⟨_, hhead⟩, hlast⟩ := hparts
    have ha : isWS a = false := by
      simpa [List.headD] using hhead
    unfold jsTrim
    have h1 : List.dropWhile isWS (' ' :: (a :: rest ++ [' '])) =
        List.dropWhile isWS (a :: (rest ++ [' '])) := by
      rw [List.dropWhile_cons, hws]
      rfl
    have h2 : List.dropWhile isWS (a :: (rest ++ [' '])) = a :: (rest ++ [' ']) := by
      rw [List.dropWhile_cons, ha]
      simp
    rw [h1, h2]
    have h3 : (a :: (rest ++ [' '])).reverse = ' ' :: (a :: rest).reverse := by
      simp
    rw [h3, List.dropWhile_cons, hws, if_pos rfl]
    rcases hrev : (a :: rest).reverse with _ | ⟨b, tb⟩
    · exact absurd hrev (by simp)
    · have hb : isWS b = false := by
        rw [hrev] at hlast
        simpa [List.headD] using hlast
      rw [List.dropWhile_cons, hb]
      simp only [Bool.false_eq_true, if_false]
      rw [← hrev, List.reverse_reverse]

theorem mem_concatAll {x : Char} {l : List Char} {ls : List (List Char)}
    (hl : l ∈ ls) (hx : x ∈ l) : x ∈ concatAll ls := by
  induction ls with
  | nil => cases hl
  | cons l0 rest ih =>
    rcases List.mem_cons.mp hl with hl | hl
    · subst hl
      exact List.mem_append.mpr (Or.inl hx)
    · exact List.mem_append.mpr (Or.inr (ih hl))

theorem not_mem_concatAll {x : Char} {ls : List (List Char)}
    (h : ∀ l ∈ ls, x ∉ l) : x ∉ concatAll ls := by
  induction ls with
  | nil => simp [concatAll]
  | cons l0 rest ih =>
    simp only [concatAll, List.mem_append]
    rintro (hx | hx)
    · exact h l0 (List.mem_cons_self _ _) hx
    · exact ih (fun l hl => h l (List.mem_cons_of_mem _ hl)) hx

theorem all_chars_of_goodCell (c : List Char) (h : goodCell c = true) :
    ∀ ch ∈ c, (!(ch == '|') && !(ch == '\n')) = true := by
  simp only [goodCell, Bool.and_eq_true] at h
  exact List.all_eq_true.mp h.1.1

theorem newline_not_mem_goodCell (c : List Char) (h : goodCell c = true) : '\n' ∉ c :=
  fun hx => absurd (all_chars_of_goodCell c h '\n' hx) (by decide)

theorem pipe_not_mem_goodCell (c : List Char) (h : goodCell c = true) : '|' ∉ c :=
  fun hx => absurd (all_chars_of_goodCell c h '|' hx) (by decide)

theorem newline_not_mem_renderLine (cells : List (List Char))
    (h : ∀ c ∈ cells, goodCell c = true) : '\n' ∉ renderLine cells := by
  unfold renderLine
  intro hmem
  rcases List.mem_cons.mp hmem with hc | hc
  · exact absurd hc (by decide)
  · refine not_mem_concatAll (fun l hl => ?_) hc
    obtain ⟨c, hcin, rfl⟩ := List.mem_map.mp hl
    intro hx
    rcases List.mem_cons.mp hx with hx | hx
    · exact absurd hx (by decide)
    · rcases List.mem_append.mp hx with hx | hx
      · exact newline_not_mem_goodCell c (h c hcin) hx
      · exact absurd hx (by decide)

/-- One padded cell as it appears between separators. -/
def padCell (c : List Char) : List Char := ' ' :: (c ++ [' '])

theorem splitOnChar_concat_segs (cells : List (List Char)) (h : ∀ c ∈ cells, '|' ∉ c) :
    splitOnChar '|' (concatAll (cells.map (fun c => ' ' :: (c ++ [' ', '|'])))) =
      cells.map padCell ++ [[]] := by
  induction cells with
  | nil => rfl
  | cons c cs ih =>
    have hpipe : '|' ∉ padCell c := by
      intro hx
      rcases List.mem_cons.mp hx with hx | hx
      · exact absurd hx (by decide)
      · rcases List.mem_append.mp hx with hx | hx
        · exact h c (List.mem_cons_self _ _) hx
        · exact absurd hx (by decide)
    have hassoc : concatAll ((c :: cs).map (fun c => ' ' :: (c ++ [' ', '|']))) =
        padCell c ++ '|' :: concatAll (cs.map (fun c => ' ' :: (c ++ [' ', '|']))) := by
      simp [concatAll, padCell]
    rw [hassoc, splitOnChar_append_cons _ _ _ hpipe,
      ih (fun c' hc' => h c' (List.mem_cons_of_mem _ hc'))]
    rfl

theorem splitOnChar_renderLine (cells : List (List Char)) (h : ∀ c ∈ cells, '|' ∉ c) :
    splitOnChar '|' (renderLine cells) = [] :: (cells.map padCell ++ [[]]) := by
  unfold renderLine
  rw [splitOnChar_cons_self, splitOnChar_concat_segs cells h]

theorem sliceInner_split (cells : List (List Char)) (h : ∀ c ∈ cells, '|' ∉ c) :
    sliceInner (splitOnChar '|' (renderLine cells)) = cells.map padCell := by
  rw [splitOnChar_renderLine cells h]
  unfold sliceInner
  simp

theorem map_jsTrim_padCell (cells : List (List Char))
    (h : ∀ c ∈ cells, goodCell c = true) : (cells.map padCell).map jsTrim = cells := by
  rw [List.map_map]
  conv_rhs => rw [← List.map_id cells]
  exact List.map_congr_left (fun c hc => jsTrim_pad c (h c hc))

theorem values_renderLine (cells : List (List Char))
    (h : ∀ c ∈ cells, goodCell c = true) :
    (sliceInner (splitOnChar '|' (renderLine cells))).map jsTrim = cells := by
  rw [sliceInner_split cells (fun c hc => pipe_not_mem_goodCell c (h c hc)),
    map_jsTrim_padCell cells h]

theorem hasLetter_renderLine (cells : List (List Char))
    (hex : ∃ c ∈ cells, hasLetter c = true) : hasLetter (renderLine cells) = true := by
  obtain ⟨c, hcin, hc⟩ := hex
  obtain ⟨ch, hchin, hch⟩ := List.any_eq_true.mp hc
  refine List.any_eq_true.mpr ⟨ch, ?_, hch⟩
  unfold renderLine
  exact List.mem_cons_of_mem _ (mem_concatAll (List.mem_map_of_mem _ hcin)
    (List.mem_cons_of_mem _ (List.mem_append.mpr (Or.inl hchin))))

theorem findHeader_cons_skip (line : List Char) (rest : List (List Char))
    (h : (startsWithChar '|' line && hasLetter line) = false) :
    findHeader (line :: rest) = findHeader rest := by
  simp [findHeader, h]

theorem findHeader_cons_hit (line : List Char) (rest : List (List Char))
    (h : (startsWithChar '|' line && hasLetter line) = true) :
    findHeader (line :: rest) = some (line, rest) := by
  simp [findHeader, h]

theorem startsWithChar_renderLine_pipe (cells : List (List Char)) :
    startsWithChar '|' (renderLine cells) = true := rfl

theorem startsWithChar_renderLine_plus (cells : List (List Char)) :
    startsWithChar '+' (renderLine cells) = false := rfl

/-- The row object the ASCII parser builds from one data row's trimmed
values, as a direct pairing of names and normalized values. -/
def asciiRowSpec (columnNames values : List (List Char)) (idx : Nat) :
    List (List Char × JSValue) :=
  match columnNames with
  | [] => []
  | c :: cs => (c, normAsciiCell (values.getD idx [])) :: asciiRowSpec cs values (idx + 1)

theorem asciiRowFields_spec (cols : List (List Char)) :
    ∀ (values : List (List Char)) (idx : Nat) (acc : List (List Char × JSValue)),
      cols.Nodup → (∀ c ∈ cols, ∀ e ∈ acc, e.1 ≠ c) →
      asciiRowFields cols values idx acc = acc ++ asciiRowSpec cols values idx := by
  induction cols with
  | nil => intro values idx acc _ _; simp [asciiRowFields, asciiRowSpec]
  | cons c cs ih =>
    intro values idx acc hnd hdisj
    have hset : setEntry acc c (normAsciiCell (values.getD idx [])) =
        acc ++ [(c, normAsciiCell (values.getD idx []))] :=
      setEntry_append _ _ _ (hdisj c (List.mem_cons_self _ _))
    have hnotin : c ∉ cs := (List.nodup_cons.mp hnd).1
    have hdisj' : ∀ c' ∈ cs,
        ∀ e ∈ acc ++ [(c, normAsciiCell (values.getD idx []))], e.1 ≠ c' := by
      intro c' hc' e he
      rcases List.mem_append.mp he with he | he
      · exact hdisj c' (List.mem_cons_of_mem _ hc') e he
      · simp only [List.mem_singleton] at he
        subst he
        intro hcontra
        have hcc : c = c' := hcontra
        exact hnotin (hcc ▸ hc')
    calc asciiRowFields (c :: cs) values idx acc
        = asciiRowFields cs values (idx + 1)
            (setEntry acc c (normAsciiCell (values.getD idx []))) := rfl
      _ = acc ++ [(c, normAsciiCell (values.getD idx []))] ++ asciiRowSpec cs values (idx + 1) := by
          rw [hset]
          exact ih values _ _ (List.nodup_cons.mp hnd).2 hdisj'
      _ = acc ++ asciiRowSpec (c :: cs) values idx := by simp [asciiRowSpec]

theorem asciiRowSpec_shift (cs : List (List Char)) (v : List Char) (vs : List (List Char)) :
    ∀ idx, asciiRowSpec cs (v :: vs) (idx + 1) = asciiRowSpec cs vs idx := by
  induction cs with
  | nil => intro idx; rfl
  | cons c cs' ih =>
    intro idx
    simp only [asciiRowSpec, List.getD_cons_succ, ih]

theorem asciiRowSpec_zip (cols : List (List Char)) :
    ∀ values : List (List Char), cols.length = values.length →
      asciiRowSpec cols values 0 = cols.zip (values.map normAsciiCell) := by
  induction cols with
  | nil => intro values _; rfl
  | cons c cs ih =>
    intro values hlen
    cases values with
    | nil => cases hlen
    | cons v vs =>
      simp only [asciiRowSpec, List.getD_cons_zero, asciiRowSpec_shift, List.map_cons,
        List.zip_cons_cons]
      exact congrArg _ (ih vs (by simpa using hlen))

theorem scanDataRows_cons_render (cols r : List (List Char)) (rest : List (List Char))
    (hr : ∀ cell ∈ r, goodCell cell = true) :
    scanDataRows cols (renderLine r :: rest) =
      if r.length = cols.length then
        vObj (asciiRowFields cols r 0 []) :: scanDataRows cols rest
      else scanDataRows cols rest := by
  rw [scanDataRows]
  rw [startsWithChar_renderLine_plus, startsWithChar_renderLine_pipe]
  simp only [Bool.false_eq_true, if_false, Bool.not_true, values_renderLine r hr]

theorem scanDataRows_render (cols : List (List Char)) (rows : List (List (List Char)))
    (hcells : ∀ r ∈ rows, ∀ cell ∈ r, goodCell cell = true) :
    scanDataRows cols (rows.map renderLine ++ [borderLine, footerLine]) =
      (rows.filter (fun r => r.length = cols.length)).map
        (fun r => vObj (asciiRowFields cols r 0 [])) := by
  induction rows with
  | nil => rfl
  | cons r rest ih =>
    have hr := fun cell hc => hcells r (List.mem_cons_self _ _) cell hc
    have hrest := fun r' hr' cell hc => hcells r' (List.mem_cons_of_mem _ hr') cell hc
    rw [List.map_cons, List.cons_append, scanDataRows_cons_render cols r _ hr, ih hrest]
    by_cases hlen : r.length = cols.length
    · rw [if_pos hlen, List.filter_cons_of_pos (by simpa using hlen), List.map_cons]
    · rw [if_neg hlen, List.filter_cons_of_neg (by simpa using hlen)]

theorem nonblank_of_head (x : Char) (t : List Char) (hx : isWS x = false) :
    (!(jsTrim (x :: t)).isEmpty) = true := by
  have h := jsTrim_ne_nil_of_head x t hx
  cases hcase : jsTrim (x :: t) with
  | nil => exact absurd hcase h
  | cons a b => rfl

/-- C5: for a rendered well-formed ASCII table (non-empty distinct header
names each free of `|`, newline and edge whitespace, one of them containing
a letter; data cells free of `|`, newline and edge whitespace),
`parseAsciiTableResult` succeeds and returns exactly the data rows whose
field count equals the column count — mismatched rows are silently
dropped — each row pairing every column name with its cell, where a
`<nil>`, `NULL` or empty cell becomes null and any other cell keeps its
trimmed text; `rowsAffected` is the number of returned rows. With N rows
all of matching width, the filter keeps all N. -/
theorem parseAsciiTableResult_wellformed
    (cols : List (List Char)) (rows : List (List (List Char)))
    (hne : cols ≠ []) (hnd : cols.Nodup)
    (hnames : ∀ c ∈ cols, goodName c = true)
    (hletter : ∃ c ∈ cols, hasLetter c = true)
    (hcells : ∀ r ∈ rows, ∀ cell ∈ r, goodCell cell = true) :
    parseAsciiTableResult (renderTable cols rows) =
      .ok (vObj [("columns".data, vArr (cols.map fun name => vObj [("name".data, vStr name)])),
                 ("rows".data, vArr ((rows.filter fun r => r.length = cols.length).map
                    fun r => vObj (cols.zip (r.map normAsciiCell)))),
                 ("rowsAffected".data,
                   vNum ((rows.filter fun r => r.length = cols.length).length))]) := by
  have hgoodcols : ∀ c ∈ cols, goodCell c = true := by
    intro c hc
    have := hnames c hc
    simp only [goodName, Bool.and_eq_true] at this
    exact this.2
  have hnonnil : ∀ c ∈ cols, c ≠ [] := by
    intro c hc hcnil
    subst hcnil
    have := hnames [] hc
    simp [goodName] at this
  -- the line list of the rendered table
  have hL : renderTable cols rows =
      joinNL (borderLine :: renderLine cols :: borderLine ::
        (rows.map renderLine ++ [borderLine, footerLine])) := rfl
  have hno_nl : ∀ l ∈ borderLine :: renderLine cols :: borderLine ::
      (rows.map renderLine ++ [borderLine, footerLine]), '\n' ∉ l := by
    intro l hl
    rcases List.mem_cons.mp hl with rfl | hl
    · decide
    rcases List.mem_cons.mp hl with rfl | hl
    · exact newline_not_mem_renderLine cols hgoodcols
    rcases List.mem_cons.mp hl with rfl | hl
    · decide
    rcases List.mem_append.mp hl with hl | hl
    · obtain ⟨r, hrin, rfl⟩ := List.mem_map.mp hl
      exact newline_not_mem_renderLine r (hcells r hrin)
    rcases List.mem_cons.mp hl with rfl | hl
    · decide
    rcases List.mem_cons.mp hl with rfl | hl
    · decide
    cases hl
  have hsplit : splitOnChar '\n' (renderTable cols rows) =
      borderLine :: renderLine cols :: borderLine ::
        (rows.map renderLine ++ [borderLine, footerLine]) := by
    rw [hL]
    exact splitOnChar_joinNL _ (fun h => List.noConfusion h) hno_nl
  have hnonblank : ∀ l ∈ borderLine :: renderLine cols :: borderLine ::
      (rows.map renderLine ++ [borderLine, footerLine]),
      (!(jsTrim l).isEmpty) = true := by
    intro l hl
    rcases List.mem_cons.mp hl with rfl | hl
    · exact nonblank_of_head '+' _ (by decide)
    rcases List.mem_cons.mp hl with rfl | hl
    · exact nonblank_of_head '|' _ (by decide)
    rcases List.mem_cons.mp hl with rfl | hl
    · exact nonblank_of_head '+' _ (by decide)
    rcases List.mem_append.mp hl with hl | hl
    · obtain ⟨r, hrin, rfl⟩ := List.mem_map.mp hl
      exact nonblank_of_head '|' _ (by decide)
    rcases List.mem_cons.mp hl with rfl | hl
    · exact nonblank_of_head '+' _ (by decide)
    rcases List.mem_cons.mp hl with rfl | hl
    · exact nonblank_of_head 'r' _ (by decide)
    cases hl
  have hlines : (splitOnChar '\n' (renderTable cols rows)).filter
      (fun line => !(jsTrim line).isEmpty) =
      borderLine :: renderLine cols :: borderLine ::
        (rows.map renderLine ++ [borderLine, footerLine]) := by
    rw [hsplit]
    exact List.filter_eq_self.mpr hnonblank
  have hfind : findHeader (borderLine :: renderLine cols :: borderLine ::
      (rows.map renderLine ++ [borderLine, footerLine])) =
      some (renderLine cols, borderLine :: (rows.map renderLine ++ [borderLine, footerLine])) := by
    rw [findHeader_cons_skip borderLine _ (by decide), findHeader_cons_hit]
    rw [startsWithChar_renderLine_pipe, Bool.true_and]
    exact hasLetter_renderLine cols hletter
  have hcolnames : (((sliceInner (splitOnChar '|' (renderLine cols))).map jsTrim).filter
      (fun col => col.length > 0)) = cols := by
    rw [values_renderLine cols hgoodcols]
    exact List.filter_eq_self.mpr
      (fun c hc => decide_eq_true (List.length_pos.mpr (hnonnil c hc)))
  have hcolsempty : cols.isEmpty = false := by
    cases cols with
    | nil => exact absurd rfl hne
    | cons _ _ => rfl
  have hskip : scanDataRows cols (borderLine ::
      (rows.map renderLine ++ [borderLine, footerLine])) =
      scanDataRows cols (rows.map renderLine ++ [borderLine, footerLine]) := rfl
  have hscan := scanDataRows_render cols rows hcells
  have hrowobjs : (rows.filter fun r => r.length = cols.length).map
      (fun r => vObj (asciiRowFields cols r 0 [])) =
      (rows.filter fun r => r.length = cols.length).map
      (fun r => vObj (cols.zip (r.map normAsciiCell))) := by
    refine List.map_congr_left (fun r hr => ?_)
    have hlen : r.length = cols.length := of_decide_eq_true (List.mem_filter.mp hr).2
    rw [asciiRowFields_spec cols r 0 [] hnd (fun c _ e he => absurd he (List.not_mem_nil e)),
      List.nil_append, asciiRowSpec_zip cols r hlen.symm]
  have hisEmpty : (renderTable cols rows).isEmpty = false := rfl
  unfold parseAsciiTableResult
  rw [hisEmpty]
  simp only [Bool.false_eq_true, if_false, hlines, hfind, hcolnames, hcolsempty, hskip, hscan,
    hrowobjs]
  rw [List.length_map]

/-- Witness for C5 at a concrete two-column table with one matching data
row and one mismatched (silently dropped) row. -/
theorem parseAsciiTableResult_wellformed_witness :
    parseAsciiTableResult
        (renderTable ["ID".data, "NAME".data] [["1".data, "aaa".data], ["x".data]]) =
      .ok (vObj [("columns".data, vArr [vObj [("name".data, vStr "ID".data)],
                                        vObj [("name".data, vStr "NAME".data)]]),
                 ("rows".data, vArr [vObj [("ID".data, vStr "1".data),
                                           ("NAME".data, vStr "aaa".data)]]),
                 ("rowsAffected".data, vNum 1)]) :=
  (parseAsciiTableResult_wellformed ["ID".data, "NAME".data] [["1".data, "aaa".data], ["x".data]]
    (List.cons_ne_nil _ _) (by decide) (by decide) (by decide) (by decide)).trans (by rfl)

end SqlsNext
